import Mathlib

/-!
Verification of the authentication security core of keep94/toolbox.

The development shallowly embeds the byte-level algorithms of the repository:
SHA-256 and HMAC-SHA256 (the checksum primitives used by `session_util` and
both `kdf` package versions), RFC 4648 base32 encoding (`encoding/base32`
standard alphabet, as used for the XSRF token checksum), decimal formatting
and parsing of 64-bit integers (`fmt.Sprintf("%d", ...)` and
`strconv.ParseInt(_, 10, 64)`), the `kdf` key-derivation functions
(the pbkdf2-based toolbox version and the hand-iterated appcommon version),
the `session_util.UserIdSession` operations over the gorilla session value
map, `session_util.NewUserSession`, and the `lockout` package state machine.

Byte strings are `List Nat`; every value actually produced by the embedded Go
code has entries below 256 (Go `byte` conversions are modelled by `% 256`).
Machine words are `Nat` reduced modulo 2^32 where the Go code works in
`uint32`.
-/

/-- Byte strings: Go `[]byte` / `string` values, one `Nat` per byte. -/
abbrev Bytes := List Nat

namespace Sha256

/-- Reduction of an unsigned word modulo 2^32, the `uint32` wraparound. -/
def w32 (n : Nat) : Nat := n % 4294967296

/-- Right rotation of a 32-bit word by `k` positions. -/
def rotr (k x : Nat) : Nat := w32 ((x >>> k) ||| (x <<< (32 - k)))

/-- Choice function of the SHA-256 compression rounds. -/
def ch (x y z : Nat) : Nat := (x &&& y) ^^^ ((x ^^^ 4294967295) &&& z)

/-- Majority function of the SHA-256 compression rounds. -/
def maj (x y z : Nat) : Nat := (x &&& y) ^^^ (x &&& z) ^^^ (y &&& z)

/-- Big sigma-0 of SHA-256. -/
def bsig0 (x : Nat) : Nat := rotr 2 x ^^^ rotr 13 x ^^^ rotr 22 x

/-- Big sigma-1 of SHA-256. -/
def bsig1 (x : Nat) : Nat := rotr 6 x ^^^ rotr 11 x ^^^ rotr 25 x

/-- Small sigma-0 of SHA-256 (message schedule). -/
def ssig0 (x : Nat) : Nat := rotr 7 x ^^^ rotr 18 x ^^^ (x >>> 3)

/-- Small sigma-1 of SHA-256 (message schedule). -/
def ssig1 (x : Nat) : Nat := rotr 17 x ^^^ rotr 19 x ^^^ (x >>> 10)

/-- Round constants of SHA-256 (FIPS 180-4). -/
def K : List Nat :=
  [1116352408, 1899447441, 3049323471, 3921009573, 961987163, 1508970993,
   2453635748, 2870763221, 3624381080, 310598401, 607225278, 1426881987,
   1925078388, 2162078206, 2614888103, 3248222580, 3835390401, 4022224774,
   264347078, 604807628, 770255983, 1249150122, 1555081692, 1996064986,
   2554220882, 2821834349, 2952996808, 3210313671, 3336571891, 3584528711,
   113926993, 338241895, 666307205, 773529912, 1294757372, 1396182291,
   1695183700, 1986661051, 2177026350, 2456956037, 2730485921, 2820302411,
   3259730800, 3345764771, 3516065817, 3600352804, 4094571909, 275423344,
   430227734, 506948616, 659060556, 883997877, 958139571, 1322822218,
   1537002063, 1747873779, 1955562222, 2024104815, 2227730452, 2361852424,
   2428436474, 2756734187, 3204031479, 3329325298]

/-- Working state of the compression function: the eight 32-bit chaining
words. -/
structure St where
  a : Nat
  b : Nat
  c : Nat
  d : Nat
  e : Nat
  f : Nat
  g : Nat
  h : Nat

/-- Initial hash value of SHA-256 (FIPS 180-4). -/
def H0 : St :=
  ⟨1779033703, 3144134277, 1013904242, 2773480762,
   1359893119, 2600822924, 528734635, 1541459225⟩

/-- One compression round on the working state with round constant `k` and
schedule word `w`. -/
def round (s : St) (k w : Nat) : St :=
  let t1 := w32 (s.h + bsig1 s.e + ch s.e s.f s.g + k + w)
  let t2 := w32 (bsig0 s.a + maj s.a s.b s.c)
  ⟨w32 (t1 + t2), s.a, s.b, s.c, w32 (s.d + t1), s.e, s.f, s.g⟩

/-- Big-endian packing of bytes into 32-bit words, four bytes per word. -/
def toWords : Bytes → List Nat
  | a :: b :: c :: d :: rest => (((a * 256 + b) * 256 + c) * 256 + d) :: toWords rest
  | _ => []

/-- Message schedule extension; `rev` holds the schedule produced so far in
reverse (most recent word first), `k` counts the words still to produce. -/
def schedAux : Nat → List Nat → List Nat
  | 0, rev => rev
  | k + 1, rev =>
      schedAux k
        (w32 (ssig1 (rev.getD 1 0) + rev.getD 6 0 +
              ssig0 (rev.getD 14 0) + rev.getD 15 0) :: rev)

/-- The 64-word message schedule from the 16 words of one block. -/
def schedule (ws : List Nat) : List Nat := (schedAux 48 ws.reverse).reverse

/-- Compression of one 64-byte block into the chaining state. -/
def compress (s : St) (block : Bytes) : St :=
  let t := ((K.zip (schedule (toWords block))).foldl
    (fun st kw => round st kw.1 kw.2) s)
  ⟨w32 (s.a + t.a), w32 (s.b + t.b), w32 (s.c + t.c), w32 (s.d + t.d),
   w32 (s.e + t.e), w32 (s.f + t.f), w32 (s.g + t.g), w32 (s.h + t.h)⟩

/-- Big-endian serialization of a 32-bit word into four bytes; the `% 256`
is Go's `byte(...)` conversion. -/
def be32 (n : Nat) : Bytes := [n >>> 24 % 256, n >>> 16 % 256, n >>> 8 % 256, n % 256]

/-- Big-endian serialization of a 64-bit length field into eight bytes. -/
def be64 (n : Nat) : Bytes :=
  [n >>> 56 % 256, n >>> 48 % 256, n >>> 40 % 256, n >>> 32 % 256,
   n >>> 24 % 256, n >>> 16 % 256, n >>> 8 % 256, n % 256]

/-- Merkle-Damgard padding: a 0x80 byte, zeros to 56 mod 64, and the
64-bit big-endian bit length. -/
def pad (m : Bytes) : Bytes :=
  m ++ 128 :: (List.replicate ((119 - m.length % 64) % 64) 0 ++ be64 (8 * m.length))

/-- Splitting into 64-byte blocks; the fuel argument bounds the recursion
and any value at least the list length is enough. -/
def chunksAux : Nat → Bytes → List Bytes
  | 0, _ => []
  | _ + 1, [] => []
  | fuel + 1, l => l.take 64 :: chunksAux fuel (l.drop 64)

/-- The 64-byte blocks of a padded message. -/
def chunks (l : Bytes) : List Bytes := chunksAux l.length l

/-- The SHA-256 digest of a byte string: 32 bytes. -/
def sha256 (m : Bytes) : Bytes :=
  let s := (chunks (pad m)).foldl compress H0
  be32 s.a ++ be32 s.b ++ be32 s.c ++ be32 s.d ++
  be32 s.e ++ be32 s.f ++ be32 s.g ++ be32 s.h

/-- HMAC-SHA256 as in Go `crypto/hmac`: block size 64, key hashed when
longer than a block and zero-padded to the block size, inner pad byte
0x36 = 54, outer pad byte 0x5c = 92. -/
def hmacSha256 (key msg : Bytes) : Bytes :=
  let k0 := if 64 < key.length then sha256 key else key
  let kp := k0 ++ List.replicate (64 - k0.length) 0
  sha256 ((kp.map fun b => b ^^^ 92) ++ sha256 ((kp.map fun b => b ^^^ 54) ++ msg))

end Sha256

namespace Base32

/-- Standard base32 alphabet `A`..`Z` `2`..`7` of RFC 4648, as byte values
(Go `encoding/base32.StdEncoding`). -/
def alpha : List Nat :=
  [65, 66, 67, 68, 69, 70, 71, 72, 73, 74, 75, 76, 77, 78, 79, 80, 81, 82,
   83, 84, 85, 86, 87, 88, 89, 90, 50, 51, 52, 53, 54, 55]

/-- Alphabet character of a 5-bit index. -/
def alphaChar (j : Nat) : Nat := alpha.getD j 65

/-- Encoding of one (zero-padded) 5-byte quantum into eight alphabet
characters, via its 40-bit big-endian value. -/
def encGroup (g : Bytes) : Bytes :=
  let n := (((g.getD 0 0 * 256 + g.getD 1 0) * 256 + g.getD 2 0) * 256 +
    g.getD 3 0) * 256 + g.getD 4 0
  [alphaChar (n >>> 35 % 32), alphaChar (n >>> 30 % 32),
   alphaChar (n >>> 25 % 32), alphaChar (n >>> 20 % 32),
   alphaChar (n >>> 15 % 32), alphaChar (n >>> 10 % 32),
   alphaChar (n >>> 5 % 32), alphaChar (n % 32)]

/-- Number of data characters emitted for a final quantum of `r` bytes
(`r` between 1 and 4); the remaining characters up to eight are padding. -/
def tailLen : Nat → Nat
  | 1 => 2
  | 2 => 4
  | 3 => 5
  | _ => 7

/-- Encoding of a final partial quantum: the data characters of the
zero-extended group followed by `=` (61) padding to eight characters. -/
def encTail (l : Bytes) : Bytes :=
  (encGroup l).take (tailLen l.length) ++ List.replicate (8 - tailLen l.length) 61

/-- RFC 4648 base32 encoding with padding, as `base32.StdEncoding.EncodeToString`:
full 5-byte quanta then a padded tail. -/
def encode : Bytes → Bytes
  | [] => []
  | a :: b :: c :: d :: e :: rest => encGroup [a, b, c, d, e] ++ encode rest
  | l => encTail l

end Base32

/-- Removal of every trailing occurrence of byte `c`, as Go
`strings.TrimRight(s, "=")` for a one-byte cutset. -/
def trimRightEq (c : Nat) (l : Bytes) : Bytes :=
  (l.reverse.dropWhile fun b => b == c).reverse

/-- Decimal digit bytes of `n`, most significant first; the fuel bounds the
recursion and `n + 1` is always sufficient. -/
def natToDecAux : Nat → Nat → Bytes
  | 0, _ => []
  | fuel + 1, n => if n < 10 then [n + 48] else natToDecAux fuel (n / 10) ++ [n % 10 + 48]

/-- Decimal digit bytes of a natural number (`"0"` for zero). -/
def natToDec (n : Nat) : Bytes := natToDecAux (n + 1) n

/-- Decimal byte string of an integer as produced by Go `fmt.Sprintf("%d", _)`
on an `int64`: a `-` (45) sign for negatives, then the digits of the
absolute value. -/
def intToDec (i : Int) : Bytes :=
  if i < 0 then 45 :: natToDec i.natAbs else natToDec i.natAbs

/-- Value of one decimal digit byte, `none` for a non-digit. -/
def digitVal (c : Nat) : Option Nat :=
  if 48 ≤ c ∧ c ≤ 57 then some (c - 48) else none

/-- Left fold of decimal digits onto an accumulator; `none` on any
non-digit byte. -/
def parseDigitsAux : Nat → Bytes → Option Nat
  | acc, [] => some acc
  | acc, c :: rest =>
      match digitVal c with
      | some d => parseDigitsAux (acc * 10 + d) rest
      | none => none

/-- Value of a non-empty all-digit byte string; `none` when empty or on any
non-digit. -/
def parseDigits : Bytes → Option Nat
  | [] => none
  | l => parseDigitsAux 0 l

/-- Go `strconv.ParseInt(s, 10, 64)` as an error-or-value function: optional
sign, non-empty digit run, and the signed 64-bit range check (range overflow
is an error, so it yields `none` here). -/
def parseInt64 (s : Bytes) : Option Int :=
  match s with
  | [] => none
  | c :: rest =>
      if c = 43 then
        (parseDigits rest).bind fun n =>
          if 9223372036854775808 ≤ n then none else some (n : Int)
      else if c = 45 then
        (parseDigits rest).bind fun n =>
          if 9223372036854775808 < n then none else some (-(n : Int))
      else
        (parseDigits s).bind fun n =>
          if 9223372036854775808 ≤ n then none else some (n : Int)

/-- Index of the first occurrence of byte `c`, as Go `strings.IndexByte`
(`none` standing for the Go result `-1`). -/
def indexByte : Bytes → Nat → Option Nat
  | [], _ => none
  | b :: rest, c => if b = c then some 0 else (indexByte rest c).map (· + 1)

namespace kdf

/-- Default repetition count of both `kdf` package versions. -/
def DefaultReps : Nat := 1972

/-- Inner rounds of one PBKDF2 block after the first: `k` further rounds
mapping `(T, U)` to `(T xor U', U')` with `U' = HMAC(password, U)`, per
`golang.org/x/crypto/pbkdf2`. -/
def innerRounds (password : Bytes) : Nat → Bytes × Bytes → Bytes × Bytes
  | 0, tu => tu
  | k + 1, (t, u) =>
      let u2 := Sha256.hmacSha256 password u
      innerRounds password k (List.zipWith (fun x y => x ^^^ y) t u2, u2)

/-- One PBKDF2 output block: `U1 = HMAC(password, salt || be32(block))`
folded with `iter - 1` further rounds. -/
def pbkdf2Block (password salt : Bytes) (iter block : Nat) : Bytes :=
  let u1 := Sha256.hmacSha256 password (salt ++ Sha256.be32 block)
  (innerRounds password (iter - 1) (u1, u1)).1

/-- PBKDF2-HMAC-SHA256 (`pbkdf2.Key` with `sha256.New`): blocks numbered
from 1 are concatenated and truncated to `keyLen`. -/
def pbkdf2Key (password salt : Bytes) (iter keyLen : Nat) : Bytes :=
  let numBlocks := (keyLen + 32 - 1) / 32
  (((List.range numBlocks).foldl
    (fun dk i => dk ++ pbkdf2Block password salt iter (i + 1)) [])).take keyLen

/-- The toolbox `kdf.KDF`: a 32-byte key via PBKDF2-HMAC-SHA256. -/
def KDF (plain salt : Bytes) (reps : Nat) : Bytes := pbkdf2Key plain salt reps 32

/-- The toolbox `kdf.NewHMAC`: the 8 random salt bytes (here an explicit
argument, standing for `Random(8)`) followed by the derived key. -/
def NewHMAC (plain salt : Bytes) (reps : Nat) : Bytes := salt ++ KDF plain salt reps

/-- The toolbox `kdf.VerifyHMAC`: `hmac.Equal(mac[8:], KDF(plain, mac[:8], reps))`.
Slicing `mac[8:]` panics in Go when `mac` holds fewer than 8 bytes, modelled
by `none`; otherwise the comparison result. -/
def VerifyHMAC (plain mac : Bytes) (reps : Nat) : Option Bool :=
  if mac.length < 8 then none
  else some (mac.drop 8 == KDF plain (mac.take 8) reps)

end kdf

namespace kdfAC

/-- The appcommon `kdf.serializeint`: four big-endian bytes of the round
counter (each `byte((i >> k) & 0xFF)`, which is `Sha256.be32`). -/
def serializeint (i : Nat) : Bytes := Sha256.be32 i

/-- Iteration of the appcommon `kdf.KDF` loop: `k` remaining rounds, round
index `i`, chaining value `result`, each round taking
`result := HMAC(plain, serializeint(i) || result)`. -/
def KDFAux (plain : Bytes) : Nat → Nat → Bytes → Bytes
  | 0, _, result => result
  | k + 1, i, result =>
      KDFAux plain k (i + 1) (Sha256.hmacSha256 plain (serializeint i ++ result))

/-- The appcommon `kdf.KDF`: `reps` rounds of the keyed hash starting from
the salt, with a 0-based round counter prepended each round. -/
def KDF (plain salt : Bytes) (reps : Nat) : Bytes := KDFAux plain reps 0 salt

/-- The appcommon `kdf.NewHMAC`: salt (the explicit argument stands for
`Random(8)`) followed by the derived key. -/
def NewHMAC (plain salt : Bytes) (reps : Nat) : Bytes := salt ++ KDF plain salt reps

/-- The appcommon `kdf.VerifyHMAC`, with the same Go slicing behavior as the
toolbox version: `none` models the slice-bounds panic on records shorter
than 8 bytes. -/
def VerifyHMAC (plain mac : Bytes) (reps : Nat) : Option Bool :=
  if mac.length < 8 then none
  else some (mac.drop 8 == KDF plain (mac.take 8) reps)

end kdfAC

namespace session_util

/-- Session value keys: the three `sessionKeyType` constants of the package
plus the foreign keys other packages may store in the same gorilla
`Values` map. -/
inductive SKey where
  | userIdKey
  | xsrfSecretKey
  | lastLoginKey
  | otherKey (n : Nat)
deriving DecidableEq

/-- Session values: the typed payloads the package stores (`int64` user id,
`[]byte` secret, `time.Time` last login) plus opaque foreign values. -/
inductive SVal where
  | intV (i : Int)
  | bytesV (b : Bytes)
  | timeV (t : Int)
  | otherV (n : Nat)
deriving DecidableEq

/-- The gorilla session value mapping `S.Values`. -/
abbrev Values : Type := SKey → Option SVal

/-- Map update `m[k] = v`. -/
def mapSet (m : Values) (k : SKey) (v : SVal) : Values :=
  fun q => if q = k then some v else m q

/-- Map removal `delete(m, k)`. -/
def mapDel (m : Values) (k : SKey) : Values :=
  fun q => if q = k then none else m q

/-- `UserIdSession.UserId`: the stored user id, when present. In every state
this package produces, the user-id key holds an `int64`; the accessor reads
that value. -/
def UserId (m : Values) : Option Int :=
  match m SKey.userIdKey with
  | some (SVal.intV i) => some i
  | _ => none

/-- The private `xsrfSecret` accessor: the stored secret bytes, when
present. -/
def xsrfSecret (m : Values) : Option Bytes :=
  match m SKey.xsrfSecretKey with
  | some (SVal.bytesV b) => some b
  | _ => none

/-- `UserIdSession.LastLogin`: the stored last-login time, when present
(times are unix seconds here). -/
def LastLogin (m : Values) : Option Int :=
  match m SKey.lastLoginKey with
  | some (SVal.timeV t) => some t
  | _ => none

/-- `UserIdSession.SetUserId`: stores the user id, then stores a fresh xsrf
secret; the `freshSecret` argument stands for the `kdf.Random(64)` draw. -/
def SetUserId (m : Values) (id : Int) (freshSecret : Bytes) : Values :=
  mapSet (mapSet m SKey.userIdKey (SVal.intV id)) SKey.xsrfSecretKey
    (SVal.bytesV freshSecret)

/-- `UserIdSession.ClearUserId`: deletes the user-id key, then deletes the
xsrf-secret key. -/
def ClearUserId (m : Values) : Values :=
  mapDel (mapDel m SKey.userIdKey) SKey.xsrfSecretKey

/-- The MAC input `fmt.Sprintf("%d_%d_%s", expireUnix, userId, action)`
(95 is `_`). -/
def xsrfMessage (expireUnix userId : Int) (action : Bytes) : Bytes :=
  intToDec expireUnix ++ 95 :: (intToDec userId ++ 95 :: action)

/-- The token checksum: base32 of the HMAC-SHA256 of the message under the
session secret, with trailing `=` stripped. -/
def xsrfChecksum (secret : Bytes) (expireUnix userId : Int) (action : Bytes) : Bytes :=
  trimRightEq 61 (Base32.encode (Sha256.hmacSha256 secret
    (xsrfMessage expireUnix userId action)))

/-- The token bytes `fmt.Sprintf("%d:%s", expireUnix, checksum)` (58 is
`:`), for a given secret and user id. -/
def newXsrfTokenRaw (secret : Bytes) (userId : Int) (action : Bytes)
    (expireUnix : Int) : Bytes :=
  intToDec expireUnix ++ 58 :: xsrfChecksum secret expireUnix userId action

/-- `UserIdSession.NewXsrfToken`; `expire` is `expire.Unix()` and `none`
models the two panics on a session missing the user id or the secret. -/
def NewXsrfToken (m : Values) (action : Bytes) (expire : Int) : Option Bytes :=
  match UserId m with
  | none => none
  | some uid =>
      match xsrfSecret m with
      | none => none
      | some secret => some (newXsrfTokenRaw secret uid action expire)

/-- `UserIdSession.VerifyXsrfToken`: split at the first `:`, parse the
expiry, compare `now.Unix() >= expireUnix`, then recompute the checksum from
the session's current user id and secret and compare
(`hmac.Equal` is plain byte-string equality). -/
def VerifyXsrfToken (m : Values) (token action : Bytes) (now : Int) : Bool :=
  match indexByte token 58 with
  | none => false
  | some idx =>
      match parseInt64 (token.take idx) with
      | none => false
      | some expireUnix =>
          if expireUnix ≤ now then false
          else
            match UserId m with
            | none => false
            | some uid =>
                match xsrfSecret m with
                | none => false
                | some secret =>
                    token.drop (idx + 1) == xsrfChecksum secret expireUnix uid action

/-- The session object produced by `NewUserSession`: the user id its
gorilla session carries, and the business object set by `SetUser`. -/
structure ResolvedSession (U : Type) where
  userIdOf : Option Int
  userPtr : Option U
deriving DecidableEq

/-- `session_util.NewUserSession`. `storeResult` is the outcome of
`sessionStore.Get` abstracted to the user id the wrapped session carries
(errors are the store errors); `getUser` is `userGetter.GetUser`;
`noSuchId` the sentinel error. Error values are numbered opaquely. -/
def NewUserSession {U : Type} (storeResult : Except Nat (Option Int))
    (getUser : Int → Except Nat U) (noSuchId : Nat) :
    Except Nat (ResolvedSession U) :=
  match storeResult with
  | Except.error e => Except.error e
  | Except.ok uidOpt =>
      match uidOpt with
      | none => Except.ok ⟨none, none⟩
      | some uid =>
          match getUser uid with
          | Except.ok u => Except.ok ⟨some uid, some u⟩
          | Except.error e =>
              if e = noSuchId then Except.ok ⟨some uid, none⟩
              else Except.error e

end session_util

namespace lockout

/-- The `lockout.Lockout` state: the failure threshold and the
per-account consecutive-failure counts (a missing map entry is the Go
zero value 0). -/
structure Lockout where
  failures : Nat
  counts : String → Nat

/-- A `*Lockout` receiver: `none` is the nil pointer that disables
lockout. -/
abbrev LockoutP : Type := Option Lockout

/-- `lockout.New`: a lockout with the given threshold and empty counts
(`New` panics when `failures < 1`, so callers only reach thresholds of at
least one). -/
def newLockout (failures : Nat) : Lockout := ⟨failures, fun _ => 0⟩

/-- `Lockout.Success`: no-op on the nil receiver and on an account at or
above the threshold; otherwise clears the account's count. -/
def Success : LockoutP → String → LockoutP
  | none, _ => none
  | some l, u =>
      if l.failures ≤ l.counts u then some l
      else some { l with counts := fun v => if v = u then 0 else l.counts v }

/-- `Lockout.Failure`: false on the nil receiver; otherwise increments the
account's count and reports whether the count just reached the
threshold, returning the updated state. -/
def Failure : LockoutP → String → Bool × LockoutP
  | none, _ => (false, none)
  | some l, u =>
      let c := l.counts u + 1
      (c == l.failures,
       some { l with counts := fun v => if v = u then c else l.counts v })

/-- `Lockout.Locked`: false on the nil receiver; otherwise whether the
account's count has reached the threshold. -/
def Locked : LockoutP → String → Bool
  | none, _ => false
  | some l, u => l.failures ≤ l.counts u

/-- One call against a lockout instance. -/
inductive Op where
  | success (u : String)
  | failure (u : String)

/-- Application of one call to the state. -/
def applyOp (l : LockoutP) : Op → LockoutP
  | Op.success u => Success l u
  | Op.failure u => (Failure l u).2

/-- Application of a call sequence, oldest first. -/
def applyOps (l : LockoutP) (ops : List Op) : LockoutP := ops.foldl applyOp l

end lockout


/-- An account-count accessor for stating lockout properties: the nil
receiver has no counts. -/
def lockout.countsOf : lockout.LockoutP → String → Nat
  | none, _ => 0
  | some l, u => l.counts u

/-- A concrete 64-byte secret, of the shape `kdf.Random(64)` draws. -/
def secretWit : Bytes := List.replicate 64 7

/-- A second concrete 64-byte secret differing from the first. -/
def secretWit2 : Bytes := 8 :: List.replicate 63 7

/-- A concrete logged-in session state: user id 1, the concrete secret, and
a last-login value. -/
def mWit : session_util.Values := fun k =>
  match k with
  | session_util.SKey.userIdKey => some (session_util.SVal.intV 1)
  | session_util.SKey.xsrfSecretKey => some (session_util.SVal.bytesV secretWit)
  | session_util.SKey.lastLoginKey => some (session_util.SVal.timeV 5)
  | session_util.SKey.otherKey _ => none

/-- The token the concrete session issues for the empty action with expiry
second 2. -/
def tokWit : Bytes := session_util.newXsrfTokenRaw secretWit 1 [] 2

/-! Helper facts about decimal formatting and parsing. -/

/-- Digit bytes produced by `natToDecAux` lie in the ASCII digit range. -/
theorem natToDecAux_mem : ∀ (fuel n : Nat), ∀ b ∈ natToDecAux fuel n, 48 ≤ b ∧ b ≤ 57 := by
  intro fuel
  induction fuel with
  | zero => intro n b hb; simp [natToDecAux] at hb
  | succ f ih =>
      intro n b hb
      by_cases h : n < 10
      · simp [natToDecAux, h] at hb
        omega
      · simp only [natToDecAux, if_neg h, List.mem_append, List.mem_singleton] at hb
        rcases hb with hb | hb
        · exact ih _ b hb
        · have : n % 10 < 10 := Nat.mod_lt _ (by norm_num)
          omega

/-- Formatted naturals are never empty. -/
theorem natToDecAux_ne_nil (f n : Nat) : natToDecAux (f + 1) n ≠ [] := by
  by_cases h : n < 10 <;> simp [natToDecAux, h]

/-- Consuming one digit byte multiplies the accumulator by ten and adds the
digit value. -/
theorem parseDigitsAux_cons_digit (acc c : Nat) (rest : Bytes)
    (h : 48 ≤ c ∧ c ≤ 57) :
    parseDigitsAux acc (c :: rest) = parseDigitsAux (acc * 10 + (c - 48)) rest := by
  simp [parseDigitsAux, digitVal, if_pos h]

/-- Parsing after formatting: folding the digit bytes of `n` onto an
accumulator multiplies the accumulator by the written power of ten and adds
`n`, for adequate fuel. -/
theorem parseDigitsAux_natToDecAux (n : Nat) :
    ∀ (fuel acc : Nat) (rest : Bytes), 0 < fuel → n < 10 ^ fuel →
      parseDigitsAux acc (natToDecAux fuel n ++ rest) =
        parseDigitsAux (acc * 10 ^ (natToDecAux fuel n).length + n) rest := by
  induction n using Nat.strong_induction_on with
  | _ n ih =>
      intro fuel acc rest hf hlt
      match fuel, hf with
      | f + 1, _ =>
        by_cases h : n < 10
        · simp only [natToDecAux, if_pos h, List.singleton_append, List.length_singleton]
          rw [parseDigitsAux_cons_digit _ _ _ (by omega)]
          have h2 : n + 48 - 48 = n := by omega
          rw [h2, pow_one]
        · have hn10 : n / 10 < n := Nat.div_lt_self (by omega) (by norm_num)
          have hf0 : 0 < f := by
            rcases Nat.eq_zero_or_pos f with rfl | hf0
            · simp at hlt; omega
            · exact hf0
          have hdiv : n / 10 < 10 ^ f := by
            have : n < 10 ^ f * 10 := by
              have := hlt
              rw [pow_succ] at this
              omega
            exact Nat.div_lt_of_lt_mul (by omega)
          simp only [natToDecAux, if_neg h, List.append_assoc, List.singleton_append]
          rw [ih (n / 10) hn10 f acc ((n % 10 + 48) :: rest) hf0 hdiv]
          rw [parseDigitsAux_cons_digit _ _ _ (by omega)]
          have h2 : n % 10 + 48 - 48 = n % 10 := by omega
          rw [h2]
          have h3 : (acc * 10 ^ (natToDecAux f (n / 10)).length + n / 10) * 10 + n % 10 =
              acc * 10 ^ ((natToDecAux f (n / 10)).length + 1) + n := by
            rw [pow_succ]
            have := Nat.div_add_mod n 10
            ring_nf
            omega
          rw [h3, List.length_append, List.length_singleton]

/-- Parsing inverts decimal formatting of naturals. -/
theorem parseDigits_natToDec (n : Nat) : parseDigits (natToDec n) = some n := by
  have hne : natToDec n ≠ [] := natToDecAux_ne_nil n n
  have hfuel : n < 10 ^ (n + 1) := by
    calc n < 10 ^ n := Nat.lt_pow_self (by norm_num) n
    _ ≤ 10 ^ (n + 1) := Nat.pow_le_pow_right (by norm_num) (by omega)
  have hmain := parseDigitsAux_natToDecAux n (n + 1) 0 [] (by omega) hfuel
  rw [List.append_nil] at hmain
  have heq : parseDigits (natToDec n) = parseDigitsAux 0 (natToDec n) := by
    cases h : natToDec n with
    | nil => exact absurd h hne
    | cons c cs => rfl
  rw [heq, natToDec, hmain]
  simp [parseDigitsAux]

/-- Bytes of a formatted integer are the sign byte or digit bytes. -/
theorem intToDec_mem (i : Int) : ∀ b ∈ intToDec i, b = 45 ∨ (48 ≤ b ∧ b ≤ 57) := by
  intro b hb
  unfold intToDec at hb
  by_cases h : i < 0
  · rw [if_pos h] at hb
    rcases List.mem_cons.mp hb with rfl | hb
    · left; rfl
    · right; exact natToDecAux_mem _ _ b hb
  · rw [if_neg h] at hb
    right; exact natToDecAux_mem _ _ b hb

/-- The formatted expiry never contains the `:` delimiter byte. -/
theorem intToDec_ne_colon (i : Int) : ∀ b ∈ intToDec i, b ≠ 58 := by
  intro b hb
  rcases intToDec_mem i b hb with rfl | hb <;> omega

/-- Parsing inverts formatting on the signed 64-bit range. -/
theorem parseInt64_intToDec (i : Int) (hlo : -(2 ^ 63) ≤ i) (hhi : i < 2 ^ 63) :
    parseInt64 (intToDec i) = some i := by
  by_cases h : i < 0
  · have habs : (i.natAbs : Int) = -i := by omega
    have habs63 : i.natAbs ≤ 2 ^ 63 := by omega
    rw [intToDec, if_pos h]
    show parseInt64 (45 :: natToDec i.natAbs) = some i
    rw [parseInt64]
    norm_num
    rw [parseDigits_natToDec]
    simp only [Option.some_bind]
    rw [if_neg (by exact_mod_cast Nat.not_lt.mpr habs63)]
    congr 1
    omega
  · have habs : (i.natAbs : Int) = i := by omega
    have habs63 : i.natAbs < 2 ^ 63 := by omega
    rw [intToDec, if_neg h]
    have hne : natToDec i.natAbs ≠ [] := natToDecAux_ne_nil _ _
    rcases hcons : natToDec i.natAbs with _ | ⟨c, cs⟩
    · exact absurd hcons hne
    · have hc : 48 ≤ c ∧ c ≤ 57 := by
        have : c ∈ natToDec i.natAbs := by rw [hcons]; exact List.mem_cons_self _ _
        exact natToDecAux_mem _ _ c this
      rw [parseInt64]
      rw [if_neg (by omega), if_neg (by omega)]
      rw [← hcons, parseDigits_natToDec]
      simp only [Option.some_bind]
      rw [if_neg (by exact_mod_cast Nat.not_le.mpr habs63)]
      rw [habs]

/-- The first `:` of a token made of a colon-free head, a colon, and a tail
is the inserted one. -/
theorem indexByte_append_colon (a b : Bytes) (h : ∀ x ∈ a, x ≠ 58) :
    indexByte (a ++ 58 :: b) 58 = some a.length := by
  induction a with
  | nil => simp [indexByte]
  | cons x xs ih =>
      have hx : x ≠ 58 := h x (List.mem_cons_self _ _)
      have ih2 := ih fun y hy => h y (List.mem_cons_of_mem _ hy)
      simp [indexByte, hx, ih2]

/-! Helper facts about the session value map. -/

/-- Setting the user id stores it under the user-id key. -/
theorem UserId_SetUserId (m : session_util.Values) (id : Int) (s : Bytes) :
    session_util.UserId (session_util.SetUserId m id s) = some id := by
  simp [session_util.UserId, session_util.SetUserId, session_util.mapSet]

/-- Setting the user id stores the fresh secret under the secret key. -/
theorem xsrfSecret_SetUserId (m : session_util.Values) (id : Int) (s : Bytes) :
    session_util.xsrfSecret (session_util.SetUserId m id s) = some s := by
  simp [session_util.xsrfSecret, session_util.SetUserId, session_util.mapSet]

/-- Clearing the user id removes the user-id entry. -/
theorem UserId_ClearUserId (m : session_util.Values) :
    session_util.UserId (session_util.ClearUserId m) = none := by
  simp [session_util.UserId, session_util.ClearUserId, session_util.mapDel]

/-- Clearing the user id removes the secret entry. -/
theorem xsrfSecret_ClearUserId (m : session_util.Values) :
    session_util.xsrfSecret (session_util.ClearUserId m) = none := by
  simp [session_util.xsrfSecret, session_util.ClearUserId, session_util.mapDel]

/-- Splitting a well-formed token at the delimiter recovers the head. -/
theorem token_take (expire : Int) (c : Bytes) :
    (intToDec expire ++ 58 :: c).take (intToDec expire).length = intToDec expire :=
  List.take_left _ _

/-- Splitting a well-formed token after the delimiter recovers the tail. -/
theorem token_drop (expire : Int) (c : Bytes) :
    (intToDec expire ++ 58 :: c).drop ((intToDec expire).length + 1) = c := by
  have h : intToDec expire ++ 58 :: c = (intToDec expire ++ [58]) ++ c := by simp
  rw [h]
  exact List.drop_left' (by simp)

/-- Verification of a structured token `digits : c` on a live session
reduces to comparing `c` with the freshly recomputed checksum. -/
theorem verify_structured (m : session_util.Values) (uid : Int) (secret : Bytes)
    (h1 : session_util.UserId m = some uid)
    (h2 : session_util.xsrfSecret m = some secret)
    (expire now : Int) (hlo : -(2 ^ 63) ≤ expire) (hhi : expire < 2 ^ 63)
    (hn : now < expire) (c action : Bytes) :
    session_util.VerifyXsrfToken m (intToDec expire ++ 58 :: c) action now
      = (c == session_util.xsrfChecksum secret expire uid action) := by
  have hidx := indexByte_append_colon (intToDec expire) c (intToDec_ne_colon expire)
  unfold session_util.VerifyXsrfToken
  rw [hidx]
  simp only [token_take, parseInt64_intToDec expire hlo hhi]
  rw [if_neg (not_le.mpr hn)]
  simp only [h1, h2, token_drop]

/-- Verification of a structured token at or after its expiry instant is
false regardless of session contents and action. -/
theorem verify_expired (m : session_util.Values) (expire now : Int)
    (hlo : -(2 ^ 63) ≤ expire) (hhi : expire < 2 ^ 63) (hn : expire ≤ now)
    (c action : Bytes) :
    session_util.VerifyXsrfToken m (intToDec expire ++ 58 :: c) action now = false := by
  have hidx := indexByte_append_colon (intToDec expire) c (intToDec_ne_colon expire)
  unfold session_util.VerifyXsrfToken
  rw [hidx]
  simp only [token_take, parseInt64_intToDec expire hlo hhi]
  rw [if_pos hn]

/-- Verification is false on a token with no delimiter. -/
theorem verify_no_colon (m : session_util.Values) (token action : Bytes) (now : Int)
    (h : indexByte token 58 = none) :
    session_util.VerifyXsrfToken m token action now = false := by
  unfold session_util.VerifyXsrfToken
  rw [h]

/-- Verification is false on a token whose expiry field does not parse. -/
theorem verify_bad_expiry (m : session_util.Values) (token action : Bytes) (now : Int)
    (idx : Nat) (h : indexByte token 58 = some idx)
    (h2 : parseInt64 (token.take idx) = none) :
    session_util.VerifyXsrfToken m token action now = false := by
  unfold session_util.VerifyXsrfToken
  rw [h]
  simp only [h2]

/-- Verification is false on every token once the user id is cleared. -/
theorem verify_after_clear (m : session_util.Values) (token action : Bytes) (now : Int) :
    session_util.VerifyXsrfToken (session_util.ClearUserId m) token action now = false := by
  unfold session_util.VerifyXsrfToken
  split
  · rfl
  · split
    · rfl
    · split
      · rfl
      · simp [UserId_ClearUserId]

/-! Helper facts about digest and checksum shape. -/

/-- A SHA-256 digest has 32 bytes. -/
theorem sha256_length (m : Bytes) : (Sha256.sha256 m).length = 32 := by
  simp [Sha256.sha256, Sha256.be32]

/-- Every byte of a big-endian word serialization is below 256. -/
theorem be32_lt (n : Nat) : ∀ b ∈ Sha256.be32 n, b < 256 := by
  intro b hb
  simp only [Sha256.be32, List.mem_cons, List.not_mem_nil, or_false] at hb
  rcases hb with h | h | h | h <;> rw [h] <;> exact Nat.mod_lt _ (by norm_num)

/-- Every byte of a SHA-256 digest is below 256. -/
theorem sha256_lt (m : Bytes) : ∀ b ∈ Sha256.sha256 m, b < 256 := by
  intro b hb
  simp only [Sha256.sha256, Sha256.be32, List.mem_append, List.mem_cons,
    List.not_mem_nil, or_false] at hb
  omega

/-- An HMAC-SHA256 value has 32 bytes. -/
theorem hmac_length (key msg : Bytes) : (Sha256.hmacSha256 key msg).length = 32 :=
  sha256_length _

/-- Every byte of an HMAC-SHA256 value is below 256. -/
theorem hmac_lt (key msg : Bytes) : ∀ b ∈ Sha256.hmacSha256 key msg, b < 256 :=
  sha256_lt _

/-! Helper facts about the base32 encoding. -/

/-- No alphabet character is the padding byte 61. -/
theorem alpha_ne_61 : ∀ x ∈ Base32.alpha, x ≠ 61 := by decide

/-- No alphabet character is the delimiter byte 58. -/
theorem alpha_ne_58 : ∀ x ∈ Base32.alpha, x ≠ 58 := by decide

/-- Every alphabet character is below 256. -/
theorem alpha_lt_256 : ∀ x ∈ Base32.alpha, x < 256 := by decide

/-- Alphabet lookups land in the alphabet. -/
theorem alphaChar_mem (j : Nat) : Base32.alphaChar j ∈ Base32.alpha := by
  unfold Base32.alphaChar
  simp only [List.getD_eq_getElem?_getD]
  cases h : Base32.alpha[j]? with
  | none => simp [h]; decide
  | some v =>
      have hv : v ∈ Base32.alpha := List.getElem?_mem h
      simp [h, hv]

/-- A full quantum encodes to eight alphabet characters. -/
theorem encGroup_alpha (g : Bytes) : ∀ x ∈ Base32.encGroup g, x ∈ Base32.alpha := by
  intro x hx
  simp only [Base32.encGroup, List.mem_cons, List.not_mem_nil, or_false] at hx
  rcases hx with h | h | h | h | h | h | h | h <;> (rw [h]; exact alphaChar_mem _)

/-- A full quantum encodes to a list of eight characters. -/
theorem encGroup_length (g : Bytes) : (Base32.encGroup g).length = 8 := rfl

/-- Trailing padding is removed by the right trim. -/
theorem trimRightEq_append_replicate (c : Nat) (l : Bytes) (k : Nat) :
    trimRightEq c (l ++ List.replicate k c) = trimRightEq c l := by
  unfold trimRightEq
  rw [List.reverse_append, List.reverse_replicate]
  rw [List.dropWhile_append_of_pos]
  intro a ha
  rw [List.eq_of_mem_replicate ha]
  simp

/-- Right trim is the identity when the last byte is not the trimmed one. -/
theorem trimRightEq_last_ne (c d : Nat) (l : Bytes) (h : d ≠ c) :
    trimRightEq c (l ++ [d]) = l ++ [d] := by
  unfold trimRightEq
  rw [List.reverse_append]
  simp [List.dropWhile_cons, h]

/-- Base32 of a byte string whose length is 2 modulo 5 is a run of alphabet
characters — eight per full quantum plus four for the tail — followed by
exactly four padding bytes. -/
theorem encode_structure : ∀ (n : Nat), ∀ l : Bytes, l.length = n → n % 5 = 2 →
    ∃ F T, Base32.encode l = (F ++ T) ++ List.replicate 4 61
      ∧ (∀ x ∈ F ++ T, x ∈ Base32.alpha)
      ∧ T.length = 4 ∧ F.length = n / 5 * 8 := by
  intro n
  induction n using Nat.strong_induction_on with
  | _ n ih =>
    intro l hlen hmod
    by_cases h5 : n < 5
    · have hn2 : n = 2 := by omega
      subst hn2
      rcases l with _ | ⟨x, _ | ⟨y, _ | ⟨z, t⟩⟩⟩
      · simp at hlen
      · simp at hlen
      · refine ⟨[], (Base32.encGroup [x, y]).take 4, ?_, ?_, ?_, ?_⟩
        · show Base32.encTail [x, y] = _
          simp [Base32.encTail, Base32.tailLen]
        · intro a ha
          simp only [List.nil_append] at ha
          exact encGroup_alpha _ a (List.take_subset _ _ ha)
        · simp [encGroup_length]
        · simp
      · simp at hlen
    · rcases l with _ | ⟨a, _ | ⟨b, _ | ⟨c, _ | ⟨d, _ | ⟨e, rest⟩⟩⟩⟩⟩ <;>
        simp at hlen <;> try omega
      · have hrest : rest.length = n - 5 := by omega
        have hmod2 : (n - 5) % 5 = 2 := by omega
        obtain ⟨F, T, henc, halpha, hT, hF⟩ := ih (n - 5) (by omega) rest hrest hmod2
        refine ⟨Base32.encGroup [a, b, c, d, e] ++ F, T, ?_, ?_, hT, ?_⟩
        · show Base32.encGroup [a, b, c, d, e] ++ Base32.encode rest = _
          rw [henc]
          simp [List.append_assoc]
        · intro x hx
          rcases List.mem_append.mp hx with hx | hx
          · rcases List.mem_append.mp hx with hx | hx
            · exact encGroup_alpha _ x hx
            · exact halpha x (List.mem_append.mpr (Or.inl hx))
          · exact halpha x (List.mem_append.mpr (Or.inr hx))
        · simp only [List.length_append, encGroup_length, hF]
          omega

/-- The token checksum is exactly 52 alphabet characters: base32 of the
32-byte digest is 52 data characters plus four padding bytes, and the trim
removes exactly the padding. -/
theorem xsrfChecksum_shape (secret : Bytes) (expire uid : Int) (action : Bytes) :
    (session_util.xsrfChecksum secret expire uid action).length = 52
    ∧ ∀ x ∈ session_util.xsrfChecksum secret expire uid action, x ∈ Base32.alpha := by
  obtain ⟨F, T, henc, halpha, hT, hF⟩ :=
    encode_structure 32 (Sha256.hmacSha256 secret
      (session_util.xsrfMessage expire uid action)) (hmac_length _ _) (by norm_num)
  have htrim : session_util.xsrfChecksum secret expire uid action = F ++ T := by
    unfold session_util.xsrfChecksum
    rw [henc, trimRightEq_append_replicate]
    rcases T with _ | ⟨t1, _ | ⟨t2, _ | ⟨t3, _ | ⟨t4, _ | ⟨t5, rest⟩⟩⟩⟩⟩ <;> simp at hT
    have hsplit : F ++ [t1, t2, t3, t4] = (F ++ [t1, t2, t3]) ++ [t4] := by simp
    have ht4 : t4 ≠ 61 :=
      alpha_ne_61 t4 (halpha t4 (List.mem_append.mpr (Or.inr (by simp))))
    rw [hsplit, trimRightEq_last_ne 61 t4 _ ht4]
  constructor
  · rw [htrim, List.length_append, hF, hT]
  · intro x hx
    rw [htrim] at hx
    exact halpha x hx

/-! Helper facts about the key-derivation functions. -/

/-- The inner PBKDF2 rounds preserve the 32-byte block length. -/
theorem innerRounds_length (p : Bytes) :
    ∀ (k : Nat) (t u : Bytes), t.length = 32 → u.length = 32 →
      ((kdf.innerRounds p k (t, u)).1).length = 32 := by
  intro k
  induction k with
  | zero => intro t u ht _; simpa [kdf.innerRounds] using ht
  | succ n ihn =>
      intro t u ht hu
      rw [kdf.innerRounds]
      exact ihn _ _ (by rw [List.length_zipWith, hmac_length]; omega) (hmac_length _ _)

/-- The toolbox `kdf.KDF` always outputs 32 bytes. -/
theorem kdf_KDF_length (p s : Bytes) (reps : Nat) : (kdf.KDF p s reps).length = 32 := by
  have hb : (kdf.pbkdf2Block p s reps 1).length = 32 := by
    unfold kdf.pbkdf2Block
    exact innerRounds_length p _ _ _ (hmac_length _ _) (hmac_length _ _)
  unfold kdf.KDF kdf.pbkdf2Key
  simp only [show (32 + 32 - 1) / 32 = 1 from rfl, show List.range 1 = [0] from rfl,
    List.foldl_cons, List.foldl_nil, List.nil_append, Nat.zero_add]
  rw [List.length_take, hb]
  exact min_self 32

/-- The appcommon `kdf.KDF` loop ends in a fresh digest once at least one
round runs. -/
theorem KDFAux_length (p : Bytes) :
    ∀ (k i : Nat) (r : Bytes), 1 ≤ k → (kdfAC.KDFAux p k i r).length = 32 := by
  intro k
  induction k with
  | zero => intro i r h; omega
  | succ n ihn =>
      intro i r _
      rw [kdfAC.KDFAux]
      rcases Nat.eq_zero_or_pos n with rfl | hpos
      · exact hmac_length _ _
      · exact ihn _ _ hpos

/-- The appcommon `kdf.KDF` outputs 32 bytes for at least one repetition. -/
theorem kdfAC_KDF_length (p s : Bytes) (reps : Nat) (h : 1 ≤ reps) :
    (kdfAC.KDF p s reps).length = 32 :=
  KDFAux_length p reps 0 s h

set_option maxRecDepth 1000000 in
/-- The two `kdf.KDF` versions disagree already on the empty secret and
salt at one repetition. -/
theorem kdfAC_ne_kdf_at_nil : kdfAC.KDF [] [] 1 ≠ kdf.KDF [] [] 1 := by decide

/-- C3: for every plaintext and repetition count used consistently, a
freshly created salted-hash record verifies against the same plaintext, for
any value of the 8-byte random salt, in both `kdf` package versions. -/
theorem salted_hash_roundtrip :
    (∀ (plain salt : Bytes) (reps : Nat), salt.length = 8 →
        kdf.VerifyHMAC plain (kdf.NewHMAC plain salt reps) reps = some true)
  ∧ (∀ (plain salt : Bytes) (reps : Nat), salt.length = 8 →
        kdfAC.VerifyHMAC plain (kdfAC.NewHMAC plain salt reps) reps = some true) := by
  constructor
  · intro plain salt reps hs
    unfold kdf.VerifyHMAC kdf.NewHMAC
    rw [if_neg (by simp [hs])]
    rw [List.drop_left' hs, List.take_left' hs]
    simp
  · intro plain salt reps hs
    unfold kdfAC.VerifyHMAC kdfAC.NewHMAC
    rw [if_neg (by simp [hs])]
    rw [List.drop_left' hs, List.take_left' hs]
    simp

/-- Witness for C3 at a concrete salt, plaintext and repetition count. -/
theorem salted_hash_roundtrip_witness :
    ([1, 2, 3, 4, 5, 6, 7, 8] : Bytes).length = 8
    ∧ kdf.VerifyHMAC [9] (kdf.NewHMAC [9] [1, 2, 3, 4, 5, 6, 7, 8] 2) 2 = some true
    ∧ kdfAC.VerifyHMAC [9] (kdfAC.NewHMAC [9] [1, 2, 3, 4, 5, 6, 7, 8] 2) 2 = some true :=
  ⟨by decide,
   salted_hash_roundtrip.1 [9] [1, 2, 3, 4, 5, 6, 7, 8] 2 (by decide),
   salted_hash_roundtrip.2 [9] [1, 2, 3, 4, 5, 6, 7, 8] 2 (by decide)⟩

/-- C4 counterexample: on records of fewer than 8 bytes — the zero-valued
record among them — `VerifyHMAC` does not return false: the Go slice
expression `mac[8:]` panics (modelled by `none`), in both versions. -/
theorem salted_hash_zero_record_panics :
    kdf.VerifyHMAC [102, 111, 111] [] kdf.DefaultReps = none
    ∧ kdfAC.VerifyHMAC [102, 111, 111] [] 1972 = none := ⟨rfl, rfl⟩

/-- C4 amended: records shorter than 8 bytes make `VerifyHMAC` panic, while
records of at least 8 bytes whose length is not 40 verify to false without
panicking. -/
theorem salted_hash_invalid_records :
    (∀ (plain mac : Bytes) (reps : Nat), mac.length < 8 →
        kdf.VerifyHMAC plain mac reps = none)
  ∧ (∀ (plain mac : Bytes) (reps : Nat), mac.length < 8 →
        kdfAC.VerifyHMAC plain mac reps = none)
  ∧ (∀ (plain mac : Bytes) (reps : Nat), 8 ≤ mac.length → mac.length ≠ 40 →
        kdf.VerifyHMAC plain mac reps = some false)
  ∧ (∀ (plain mac : Bytes) (reps : Nat), 1 ≤ reps → 8 ≤ mac.length → mac.length ≠ 40 →
        kdfAC.VerifyHMAC plain mac reps = some false) := by
  refine ⟨?_, ?_, ?_, ?_⟩
  · intro plain mac reps h
    unfold kdf.VerifyHMAC
    rw [if_pos h]
  · intro plain mac reps h
    unfold kdfAC.VerifyHMAC
    rw [if_pos h]
  · intro plain mac reps h8 h40
    unfold kdf.VerifyHMAC
    rw [if_neg (not_lt.mpr h8)]
    have hne : mac.drop 8 ≠ kdf.KDF plain (mac.take 8) reps := by
      intro heq
      have := congrArg List.length heq
      rw [List.length_drop, kdf_KDF_length] at this
      omega
    exact congrArg some (beq_eq_false_iff_ne.mpr hne)
  · intro plain mac reps hr h8 h40
    unfold kdfAC.VerifyHMAC
    rw [if_neg (not_lt.mpr h8)]
    have hne : mac.drop 8 ≠ kdfAC.KDF plain (mac.take 8) reps := by
      intro heq
      have := congrArg List.length heq
      rw [List.length_drop, kdfAC_KDF_length _ _ _ hr] at this
      omega
    exact congrArg some (beq_eq_false_iff_ne.mpr hne)

/-- Witness for C4's amended statement at concrete records of lengths 3
and 12. -/
theorem salted_hash_invalid_records_witness :
    kdf.VerifyHMAC [9] [1, 2, 3] 2 = none
    ∧ kdfAC.VerifyHMAC [9] [1, 2, 3] 2 = none
    ∧ kdf.VerifyHMAC [9] [1, 2, 3, 4, 5, 6, 7, 8, 9, 10, 11, 12] 2 = some false
    ∧ kdfAC.VerifyHMAC [9] [1, 2, 3, 4, 5, 6, 7, 8, 9, 10, 11, 12] 2 = some false :=
  ⟨salted_hash_invalid_records.1 [9] [1, 2, 3] 2 (by decide),
   salted_hash_invalid_records.2.1 [9] [1, 2, 3] 2 (by decide),
   salted_hash_invalid_records.2.2.1 [9] _ 2 (by decide) (by decide),
   salted_hash_invalid_records.2.2.2 [9] _ 2 (by decide) (by decide) (by decide)⟩

/-- C5: on an instance with threshold at least 1, `Failure` returns true
exactly on the call whose increment makes the account's count equal to the
threshold — equivalently, exactly on the transition into Locked; it is
false on earlier calls (count still short of the threshold) and later calls
(already locked); the nil instance always reports false for both `Failure`
and `Locked`. -/
theorem lockout_failure_transition :
    (∀ (n : Nat) (c : String → Nat) (u : String), 1 ≤ n →
        ((lockout.Failure (some ⟨n, c⟩) u).1 = true ↔ c u + 1 = n))
  ∧ (∀ (n : Nat) (c : String → Nat) (u : String), 1 ≤ n →
        ((lockout.Failure (some ⟨n, c⟩) u).1 = true ↔
          (lockout.Locked (some ⟨n, c⟩) u = false ∧
            lockout.Locked (lockout.Failure (some ⟨n, c⟩) u).2 u = true)))
  ∧ (∀ (n : Nat) (c : String → Nat) (u : String),
        lockout.Locked (some ⟨n, c⟩) u = true → (lockout.Failure (some ⟨n, c⟩) u).1 = false)
  ∧ (∀ (n : Nat) (c : String → Nat) (u : String), c u + 1 < n →
        (lockout.Failure (some ⟨n, c⟩) u).1 = false)
  ∧ (∀ u : String, (lockout.Failure none u).1 = false)
  ∧ (∀ u : String, lockout.Locked none u = false) := by
  refine ⟨?_, ?_, ?_, ?_, fun u => rfl, fun u => rfl⟩
  · intro n c u _
    simp [lockout.Failure]
  · intro n c u _
    simp [lockout.Failure, lockout.Locked]
    omega
  · intro n c u h
    simp only [lockout.Locked, decide_eq_true_eq] at h
    simp only [lockout.Failure, beq_eq_false_iff_ne, ne_eq]
    omega
  · intro n c u h
    simp only [lockout.Failure, beq_eq_false_iff_ne, ne_eq]
    omega

/-- Witness for C5 at concrete thresholds and counts. -/
theorem lockout_failure_transition_witness :
    ((lockout.Failure (some ⟨2, fun _ => 1⟩) "a").1 = true ↔ (fun _ : String => 1) "a" + 1 = 2)
    ∧ ((lockout.Failure (some ⟨2, fun _ => 1⟩) "a").1 = true ↔
        (lockout.Locked (some ⟨2, fun _ => 1⟩) "a" = false ∧
          lockout.Locked (lockout.Failure (some ⟨2, fun _ => 1⟩) "a").2 "a" = true))
    ∧ (lockout.Failure (some ⟨2, fun _ => 3⟩) "a").1 = false
    ∧ (lockout.Failure (some ⟨5, fun _ => 1⟩) "a").1 = false
    ∧ (lockout.Failure none "a").1 = false
    ∧ lockout.Locked none "a" = false :=
  ⟨lockout_failure_transition.1 2 (fun _ => 1) "a" (by decide),
   lockout_failure_transition.2.1 2 (fun _ => 1) "a" (by decide),
   lockout_failure_transition.2.2.1 2 (fun _ => 3) "a" (by decide),
   lockout_failure_transition.2.2.2.1 5 (fun _ => 1) "a" (by decide),
   lockout_failure_transition.2.2.2.2.1 "a",
   lockout_failure_transition.2.2.2.2.2 "a"⟩

/-- One lockout call preserves a locked account. -/
theorem lockout_locked_step (l : lockout.LockoutP) (u : String) (op : lockout.Op)
    (h : lockout.Locked l u = true) : lockout.Locked (lockout.applyOp l op) u = true := by
  cases l with
  | none => simp [lockout.Locked] at h
  | some st =>
      simp only [lockout.Locked, decide_eq_true_eq] at h
      cases op with
      | success v =>
          simp only [lockout.applyOp, lockout.Success]
          by_cases hc : st.failures ≤ st.counts v
          · rw [if_pos hc]
            simp only [lockout.Locked, decide_eq_true_eq]
            exact h
          · rw [if_neg hc]
            simp only [lockout.Locked, decide_eq_true_eq]
            by_cases huv : u = v
            · subst huv; omega
            · simp [huv]; exact h
      | failure v =>
          simp only [lockout.applyOp, lockout.Failure, lockout.Locked, decide_eq_true_eq]
          by_cases huv : u = v
          · subst huv; simp; omega
          · simp [huv]; exact h

/-- C6: a locked account stays locked across every later call sequence on
the instance; `Success` is a no-op on a locked account and resets exactly
the caller's count to zero on an unlocked one. -/
theorem lockout_locked_permanent :
    (∀ (l : lockout.LockoutP) (u : String) (ops : List lockout.Op),
        lockout.Locked l u = true → lockout.Locked (lockout.applyOps l ops) u = true)
  ∧ (∀ (st : lockout.Lockout) (u : String),
        lockout.Locked (some st) u = true → lockout.Success (some st) u = some st)
  ∧ (∀ (st : lockout.Lockout) (u : String),
        lockout.Locked (some st) u = false →
          lockout.countsOf (lockout.Success (some st) u) u = 0
          ∧ ∀ v, v ≠ u → lockout.countsOf (lockout.Success (some st) u) v = st.counts v) := by
  refine ⟨?_, ?_, ?_⟩
  · intro l u ops
    induction ops generalizing l with
    | nil => intro h; exact h
    | cons op rest ih =>
        intro h
        rw [lockout.applyOps, List.foldl_cons]
        exact ih _ (lockout_locked_step l u op h)
  · intro st u h
    simp only [lockout.Locked, decide_eq_true_eq] at h
    simp [lockout.Success, if_pos h]
  · intro st u h
    simp only [lockout.Locked, decide_eq_false_iff_not, not_le] at h
    constructor
    · simp [lockout.Success, if_neg (not_le.mpr h), lockout.countsOf]
    · intro v hv
      simp [lockout.Success, if_neg (not_le.mpr h), lockout.countsOf, hv]

/-- Witness for C6: a locked account survives a success and a failure, and
an unlocked account is reset. -/
theorem lockout_locked_permanent_witness :
    lockout.Locked
        (lockout.applyOps (some ⟨1, fun _ => 1⟩)
          [lockout.Op.success "a", lockout.Op.failure "a"]) "a" = true
    ∧ lockout.Success (some (⟨1, fun _ => 1⟩ : lockout.Lockout)) "a" = some ⟨1, fun _ => 1⟩
    ∧ lockout.countsOf (lockout.Success (some ⟨2, fun _ => 1⟩) "a") "a" = 0 :=
  ⟨lockout_locked_permanent.1 (some ⟨1, fun _ => 1⟩) "a" _ (by decide),
   lockout_locked_permanent.2.1 ⟨1, fun _ => 1⟩ "a" (by decide),
   (lockout_locked_permanent.2.2 ⟨2, fun _ => 1⟩ "a" (by decide)).1⟩

/-- C7: `NewUserSession` propagates a store error unchanged with no
session; on a session carrying a user id, the sentinel not-found error
leaves the business object absent with a nil error, any other lookup error
is propagated, and a successful lookup attaches the business object. -/
theorem newUserSession_error_classification :
    (∀ (U : Type) (e : Nat) (getUser : Int → Except Nat U) (noSuchId : Nat),
        session_util.NewUserSession (Except.error e) getUser noSuchId = Except.error e)
  ∧ (∀ (U : Type) (uid : Int) (getUser : Int → Except Nat U) (noSuchId : Nat),
        getUser uid = Except.error noSuchId →
        session_util.NewUserSession (Except.ok (some uid)) getUser noSuchId =
          Except.ok ⟨some uid, none⟩)
  ∧ (∀ (U : Type) (uid : Int) (getUser : Int → Except Nat U) (noSuchId e : Nat),
        getUser uid = Except.error e → e ≠ noSuchId →
        session_util.NewUserSession (Except.ok (some uid)) getUser noSuchId =
          Except.error e)
  ∧ (∀ (U : Type) (uid : Int) (getUser : Int → Except Nat U) (noSuchId : Nat) (u : U),
        getUser uid = Except.ok u →
        session_util.NewUserSession (Except.ok (some uid)) getUser noSuchId =
          Except.ok ⟨some uid, some u⟩) := by
  refine ⟨fun U e g ns => rfl, ?_, ?_, ?_⟩
  · intro U uid g ns h
    simp [session_util.NewUserSession, h]
  · intro U uid g ns e h hne
    simp [session_util.NewUserSession, h, hne]
  · intro U uid g ns u h
    simp [session_util.NewUserSession, h]

/-- Witness for C7 with concrete stores and getters over `Nat` business
objects. -/
theorem newUserSession_error_classification_witness :
    session_util.NewUserSession (U := Nat) (Except.error 7) (fun _ => Except.ok 0) 3 =
      Except.error 7
    ∧ session_util.NewUserSession (U := Nat) (Except.ok (some 1)) (fun _ => Except.error 3) 3 =
      Except.ok ⟨some 1, none⟩
    ∧ session_util.NewUserSession (U := Nat) (Except.ok (some 1)) (fun _ => Except.error 9) 3 =
      Except.error 9
    ∧ session_util.NewUserSession (U := Nat) (Except.ok (some 1)) (fun _ => Except.ok 42) 3 =
      Except.ok ⟨some 1, some 42⟩ :=
  ⟨newUserSession_error_classification.1 Nat 7 (fun _ => Except.ok 0) 3,
   newUserSession_error_classification.2.1 Nat 1 (fun _ => Except.error 3) 3 rfl,
   newUserSession_error_classification.2.2.1 Nat 1 (fun _ => Except.error 9) 3 9 rfl
     (by decide),
   newUserSession_error_classification.2.2.2 Nat 1 (fun _ => Except.ok 42) 3 42 rfl⟩

/-- C10: `ClearUserId` empties exactly the user-id and xsrf-secret keys;
every other key — the last-login key in particular — keeps its value. -/
theorem clearUserId_frame :
    ∀ (m : session_util.Values) (k : session_util.SKey),
      session_util.ClearUserId m session_util.SKey.userIdKey = none
      ∧ session_util.ClearUserId m session_util.SKey.xsrfSecretKey = none
      ∧ (k ≠ session_util.SKey.userIdKey → k ≠ session_util.SKey.xsrfSecretKey →
          session_util.ClearUserId m k = m k)
      ∧ session_util.LastLogin (session_util.ClearUserId m) = session_util.LastLogin m := by
  intro m k
  refine ⟨?_, ?_, ?_, ?_⟩
  · simp [session_util.ClearUserId, session_util.mapDel]
  · simp [session_util.ClearUserId, session_util.mapDel]
  · intro h1 h2
    simp [session_util.ClearUserId, session_util.mapDel, h1, h2]
  · simp [session_util.LastLogin, session_util.ClearUserId, session_util.mapDel]

/-- Witness for C10 on the concrete session at the last-login key. -/
theorem clearUserId_frame_witness :
    session_util.ClearUserId mWit session_util.SKey.userIdKey = none
    ∧ session_util.ClearUserId mWit session_util.SKey.xsrfSecretKey = none
    ∧ session_util.ClearUserId mWit session_util.SKey.lastLoginKey =
        mWit session_util.SKey.lastLoginKey
    ∧ session_util.LastLogin (session_util.ClearUserId mWit) = session_util.LastLogin mWit :=
  ⟨(clearUserId_frame mWit session_util.SKey.lastLoginKey).1,
   (clearUserId_frame mWit session_util.SKey.lastLoginKey).2.1,
   (clearUserId_frame mWit session_util.SKey.lastLoginKey).2.2.1 (by decide) (by decide),
   (clearUserId_frame mWit session_util.SKey.lastLoginKey).2.2.2⟩

/-- C8 amended: a token is exactly the signed decimal expiry, one `:` byte,
and the checksum; the checksum is the base32 encoding of the 32-byte
HMAC-SHA256 output with trailing `=` stripped, which is exactly 52 base32
alphabet characters (not 43). -/
theorem xsrf_token_wire_format :
    ∀ (secret : Bytes) (uid expire : Int) (action : Bytes),
      session_util.newXsrfTokenRaw secret uid action expire =
        intToDec expire ++ 58 :: session_util.xsrfChecksum secret expire uid action
      ∧ ((intToDec expire).all fun d => d == 45 || (decide (48 ≤ d) && decide (d ≤ 57))) = true
      ∧ (Sha256.hmacSha256 secret (session_util.xsrfMessage expire uid action)).length = 32
      ∧ session_util.xsrfChecksum secret expire uid action =
          trimRightEq 61 (Base32.encode (Sha256.hmacSha256 secret
            (session_util.xsrfMessage expire uid action)))
      ∧ (session_util.xsrfChecksum secret expire uid action).length = 52
      ∧ ((session_util.xsrfChecksum secret expire uid action).all
          fun x => decide (x ∈ Base32.alpha)) = true := by
  intro secret uid expire action
  refine ⟨rfl, ?_, hmac_length _ _, rfl, (xsrfChecksum_shape _ _ _ _).1, ?_⟩
  · simp only [List.all_eq_true]
    intro d hd
    rcases intToDec_mem expire d hd with rfl | ⟨h1, h2⟩
    · simp
    · simp [h1, h2]
  · simp only [List.all_eq_true, decide_eq_true_eq]
    intro x hx
    exact (xsrfChecksum_shape _ _ _ _).2 x hx

/-- C8 counterexample: on a concrete token the checksum length is 52, not
the 43 the specification states. -/
theorem xsrf_checksum_not_43_chars :
    (session_util.xsrfChecksum secretWit 2 1 []).length ≠ 43 := by
  rw [(xsrfChecksum_shape secretWit 2 1 []).1]
  decide

/-- C9 amended: both key-derivation implementations produce deterministic
32-byte keys for at least one repetition, but they are distinct functions:
they already disagree on the empty secret and salt at one repetition. -/
theorem kdf_versions_not_equivalent :
    (∀ (plain salt : Bytes) (reps : Nat), 1 ≤ reps →
        (kdfAC.KDF plain salt reps).length = 32 ∧ (kdf.KDF plain salt reps).length = 32)
  ∧ kdfAC.KDF [] [] 1 ≠ kdf.KDF [] [] 1 :=
  ⟨fun p s r h => ⟨kdfAC_KDF_length p s r h, kdf_KDF_length p s r⟩, kdfAC_ne_kdf_at_nil⟩

/-- Witness for C9's amended statement at one repetition. -/
theorem kdf_versions_not_equivalent_witness :
    (kdfAC.KDF [0] [1] 1).length = 32 ∧ (kdf.KDF [0] [1] 1).length = 32 :=
  kdf_versions_not_equivalent.1 [0] [1] 1 (by decide)

/-- C9 counterexample: the iterated keyed hash and PBKDF2-HMAC-SHA256 differ
at secret `[]`, salt `[]`, one repetition, so the two implementations are
not equivalent as functions. -/
theorem kdf_equivalence_fails :
    ¬ (kdfAC.KDF [] [] 1 = kdf.KDF [] [] 1) := kdfAC_ne_kdf_at_nil

/-- C1 amended: a freshly issued token verifies with the same action
strictly before its expiry; with another action it verifies to false
whenever the recomputed checksum differs (the case apart from HMAC
collisions); at or after the expiry instant verification is false for every
action; and tokens without a delimiter or with a non-numeric expiry are
rejected with false rather than an error. -/
theorem xsrf_token_verification :
    (∀ (m : session_util.Values) (action tok : Bytes) (expire now : Int),
        session_util.NewXsrfToken m action expire = some tok →
        -(2 ^ 63) ≤ expire → expire < 2 ^ 63 → now < expire →
        session_util.VerifyXsrfToken m tok action now = true)
  ∧ (∀ (m : session_util.Values) (uid : Int) (secret action otherAction tok : Bytes)
        (expire now : Int),
        session_util.UserId m = some uid →
        session_util.xsrfSecret m = some secret →
        session_util.NewXsrfToken m action expire = some tok →
        -(2 ^ 63) ≤ expire → expire < 2 ^ 63 →
        session_util.xsrfChecksum secret expire uid otherAction ≠
          session_util.xsrfChecksum secret expire uid action →
        session_util.VerifyXsrfToken m tok otherAction now = false)
  ∧ (∀ (m : session_util.Values) (action otherAction tok : Bytes) (expire now : Int),
        session_util.NewXsrfToken m action expire = some tok →
        -(2 ^ 63) ≤ expire → expire < 2 ^ 63 → expire ≤ now →
        session_util.VerifyXsrfToken m tok otherAction now = false)
  ∧ (∀ (m : session_util.Values) (token action : Bytes) (now : Int),
        indexByte token 58 = none →
        session_util.VerifyXsrfToken m token action now = false)
  ∧ (∀ (m : session_util.Values) (token action : Bytes) (now : Int) (idx : Nat),
        indexByte token 58 = some idx → parseInt64 (token.take idx) = none →
        session_util.VerifyXsrfToken m token action now = false) := by
  refine ⟨?_, ?_, ?_, verify_no_colon, verify_bad_expiry⟩
  · intro m action tok expire now htok hlo hhi hn
    unfold session_util.NewXsrfToken at htok
    cases h1 : session_util.UserId m with
    | none => simp [h1] at htok
    | some uid =>
        cases h2 : session_util.xsrfSecret m with
        | none => simp [h1, h2] at htok
        | some secret =>
            simp only [h1, h2, Option.some.injEq] at htok
            subst htok
            show session_util.VerifyXsrfToken m
              (intToDec expire ++ 58 :: session_util.xsrfChecksum secret expire uid action)
              action now = true
            rw [verify_structured m uid secret h1 h2 expire now hlo hhi hn]
            simp
  · intro m uid secret action otherAction tok expire now h1 h2 htok hlo hhi hdiff
    simp only [session_util.NewXsrfToken, h1, h2, Option.some.injEq] at htok
    subst htok
    show session_util.VerifyXsrfToken m
      (intToDec expire ++ 58 :: session_util.xsrfChecksum secret expire uid action)
      otherAction now = false
    by_cases hnow : now < expire
    · rw [verify_structured m uid secret h1 h2 expire now hlo hhi hnow]
      exact beq_eq_false_iff_ne.mpr (Ne.symm hdiff)
    · exact verify_expired m expire now hlo hhi (not_lt.mp hnow) _ otherAction
  · intro m action otherAction tok expire now htok hlo hhi hn
    unfold session_util.NewXsrfToken at htok
    cases h1 : session_util.UserId m with
    | none => simp [h1] at htok
    | some uid =>
        cases h2 : session_util.xsrfSecret m with
        | none => simp [h1, h2] at htok
        | some secret =>
            simp only [h1, h2, Option.some.injEq] at htok
            subst htok
            exact verify_expired m expire now hlo hhi hn _ otherAction

set_option maxRecDepth 1000000 in
/-- Witness for C1's amended statement on a concrete logged-in session:
the issued token verifies before expiry, fails under a different action
with a differing checksum, fails at a time past expiry, and malformed
tokens fail. -/
theorem xsrf_token_verification_witness :
    session_util.VerifyXsrfToken mWit tokWit [] 1 = true
    ∧ session_util.VerifyXsrfToken mWit tokWit [0] 1 = false
    ∧ session_util.VerifyXsrfToken mWit tokWit [] 5 = false
    ∧ session_util.VerifyXsrfToken mWit [1, 2, 3] [] 0 = false
    ∧ session_util.VerifyXsrfToken mWit [58] [] 0 = false :=
  ⟨xsrf_token_verification.1 mWit [] tokWit 2 1 rfl (by decide) (by decide) (by decide),
   xsrf_token_verification.2.1 mWit 1 secretWit [] [0] tokWit 2 1 rfl rfl rfl
     (by decide) (by decide) (by decide),
   xsrf_token_verification.2.2.1 mWit [] [] tokWit 2 5 rfl (by decide) (by decide) (by decide),
   xsrf_token_verification.2.2.2.1 mWit [1, 2, 3] [] 0 rfl,
   xsrf_token_verification.2.2.2.2 mWit [58] [] 0 0 rfl rfl⟩

/-- Entries of a checksum read through `getD` stay below 256. -/
theorem xsrfChecksum_getD_lt (secret : Bytes) (e u : Int) (a : Bytes) (i : Nat) :
    (session_util.xsrfChecksum secret e u a).getD i 0 < 256 := by
  rcases h : (session_util.xsrfChecksum secret e u a)[i]? with _ | v
  · simp [List.getD_eq_getElem?_getD, h]
  · have hv := (xsrfChecksum_shape secret e u a).2 v (List.getElem?_mem h)
    have hlt := alpha_lt_256 v hv
    simp [List.getD_eq_getElem?_getD, h, hlt]

set_option maxHeartbeats 1000000 in
/-- C1 counterexample: it is not the case that every distinct action is
rejected — the checksum maps infinitely many byte-string actions into a
finite set of 52-character strings, so two distinct actions share one
checksum and the token issued for the first verifies under the second. -/
theorem xsrf_distinct_action_collision :
    ¬ (∀ a1 a2 : List (Fin 256), a1 ≠ a2 →
        session_util.VerifyXsrfToken mWit
          (session_util.newXsrfTokenRaw secretWit 1 (a1.map Fin.val) 2)
          (a2.map Fin.val) 1 = false) := by
  intro hall
  haveI : Infinite (List (Fin 256)) :=
    Infinite.of_injective (fun n => List.replicate n 0)
      (fun a b h => by simpa using congrArg List.length h)
  obtain ⟨x, y, hxy, hfeq⟩ :=
    Finite.exists_ne_map_eq_of_infinite
      (fun (a : List (Fin 256)) (i : Fin 52) =>
        (⟨(session_util.xsrfChecksum secretWit 2 1 (a.map Fin.val)).getD i 0 % 256,
          Nat.mod_lt _ (by norm_num)⟩ : Fin 256))
  have heq : session_util.xsrfChecksum secretWit 2 1 (x.map Fin.val) =
      session_util.xsrfChecksum secretWit 2 1 (y.map Fin.val) := by
    apply List.ext_getElem
    · rw [(xsrfChecksum_shape _ _ _ _).1, (xsrfChecksum_shape _ _ _ _).1]
    · intro i hx52 hy52
      have h52 : i < 52 := by
        rw [(xsrfChecksum_shape _ _ _ _).1] at hx52
        exact hx52
      have hi := congrFun hfeq ⟨i, h52⟩
      have hval := congrArg Fin.val hi
      simp only at hval
      rw [Nat.mod_eq_of_lt (xsrfChecksum_getD_lt _ _ _ _ _),
        Nat.mod_eq_of_lt (xsrfChecksum_getD_lt _ _ _ _ _)] at hval
      rw [← List.getD_eq_getElem _ 0 hx52, ← List.getD_eq_getElem _ 0 hy52]
      exact hval
  have hver : session_util.VerifyXsrfToken mWit
      (session_util.newXsrfTokenRaw secretWit 1 (x.map Fin.val) 2)
      (y.map Fin.val) 1 = true := by
    show session_util.VerifyXsrfToken mWit
      (intToDec 2 ++ 58 :: session_util.xsrfChecksum secretWit 2 1 (x.map Fin.val))
      (y.map Fin.val) 1 = true
    rw [verify_structured mWit 1 secretWit rfl rfl 2 1 (by decide) (by decide) (by decide)]
    rw [heq]
    simp
  rw [hall x y hxy] at hver
  cases hver

/-- C2 amended: after `ClearUserId` no token whatsoever verifies on the
session, for every action and time; after `SetUserId` a previously issued
token verifies to false at every time whenever the checksum recomputed
under the fresh secret and new user id differs from the token's checksum —
the guaranteed-absent-collisions case; a fresh random secret equal to the
old one (or an HMAC collision) lets the old token keep verifying. -/
theorem xsrf_rotation_invalidation :
    (∀ (m : session_util.Values) (token action : Bytes) (now : Int),
        session_util.VerifyXsrfToken (session_util.ClearUserId m) token action now = false)
  ∧ (∀ (m : session_util.Values) (uid id : Int) (oldSecret newSecret action tok : Bytes)
        (expire now : Int),
        session_util.UserId m = some uid →
        session_util.xsrfSecret m = some oldSecret →
        session_util.NewXsrfToken m action expire = some tok →
        -(2 ^ 63) ≤ expire → expire < 2 ^ 63 →
        session_util.xsrfChecksum newSecret expire id action ≠
          session_util.xsrfChecksum oldSecret expire uid action →
        session_util.VerifyXsrfToken (session_util.SetUserId m id newSecret) tok action now
          = false) := by
  refine ⟨verify_after_clear, ?_⟩
  intro m uid id oldSecret newSecret action tok expire now h1 h2 htok hlo hhi hdiff
  simp only [session_util.NewXsrfToken, h1, h2, Option.some.injEq] at htok
  subst htok
  show session_util.VerifyXsrfToken (session_util.SetUserId m id newSecret)
    (intToDec expire ++ 58 :: session_util.xsrfChecksum oldSecret expire uid action)
    action now = false
  by_cases hnow : now < expire
  · rw [verify_structured (session_util.SetUserId m id newSecret) id newSecret
      (UserId_SetUserId m id newSecret) (xsrfSecret_SetUserId m id newSecret)
      expire now hlo hhi hnow]
    exact beq_eq_false_iff_ne.mpr (Ne.symm hdiff)
  · exact verify_expired _ expire now hlo hhi (not_lt.mp hnow) _ action

set_option maxRecDepth 1000000 in
/-- Witness for C2's amended statement: the concrete session's token fails
after `ClearUserId`, and fails after re-login under a different concrete
64-byte secret whose checksum differs. -/
theorem xsrf_rotation_invalidation_witness :
    session_util.VerifyXsrfToken (session_util.ClearUserId mWit) tokWit [] 1 = false
    ∧ session_util.VerifyXsrfToken (session_util.SetUserId mWit 1 secretWit2) tokWit [] 1
      = false :=
  ⟨xsrf_rotation_invalidation.1 mWit tokWit [] 1,
   xsrf_rotation_invalidation.2 mWit 1 1 secretWit secretWit2 [] tokWit 2 1 rfl rfl rfl
     (by decide) (by decide) (by decide)⟩

/-- C2 counterexample: rotation alone does not make an old token
permanently unverifiable — when the fresh 64-byte random secret drawn by
`SetUserId` happens to equal the old one, the token issued before the
re-login still verifies afterwards. -/
theorem xsrf_rotation_counterexample :
    session_util.NewXsrfToken mWit [] 2 = some tokWit
    ∧ session_util.VerifyXsrfToken (session_util.SetUserId mWit 1 secretWit) tokWit [] 1
      = true := by
  constructor
  · rfl
  · show session_util.VerifyXsrfToken (session_util.SetUserId mWit 1 secretWit)
      (intToDec 2 ++ 58 :: session_util.xsrfChecksum secretWit 2 1 []) [] 1 = true
    rw [verify_structured (session_util.SetUserId mWit 1 secretWit) 1 secretWit
      (UserId_SetUserId mWit 1 secretWit) (xsrfSecret_SetUserId mWit 1 secretWit)
      2 1 (by decide) (by decide) (by decide)]
    simp
